import Mathlib

/-!
Verification of the aggregate-segmentation pipeline of
`cytomine-applications/util/dataset/segmenters.py` (class `AggregateSegmenter`)
and its duplicate `cytomine-datamining/algorithms/thyroid/aggregate_processing.py`.

Shallow embedding conventions:
* rasters are records of a height, a width and a total pixel function
  `Int → Int → value`; only in-range pixels are ever read by the operations;
* OpenCV / scipy primitives with exact pixel semantics (erosion, dilation,
  the sliding maximum filter, connected-component labelling, the marker
  encoding, the binarization) are translated concretely;
* primitives whose output the claims treat as data (colour deconvolution,
  grayscale conversion, `cv2.findContours` together with the per-contour
  hull attributes, `cv2.distanceTransform`, `cv2.watershed`) are supplied
  by an oracle record `CvExt`, mirroring the Python objects passed in;
* Python floats are modelled as exact rationals, `np.pi` as the exact
  value of the IEEE-754 double `3.141592653589793`;
* Python exceptions are modelled with `Except PyErr`: subscripting a `None`
  hierarchy is `PyErr.typeError`, a float division by zero is
  `PyErr.zeroDivisionError`.
-/

/-- Python exceptions that the translated code can raise. -/
inductive PyErr where
  | typeError : PyErr
  | zeroDivisionError : PyErr
deriving DecidableEq

/-- A single-channel 8-bit raster (`numpy` uint8 array): height, width and a
total pixel function.  Only in-range pixels are read by the operations. -/
@[ext]
structure Img where
  h : Nat
  w : Nat
  px : Int → Int → Nat

/-- A single-channel integer raster (`numpy` int32 array). -/
@[ext]
structure IGrid where
  h : Nat
  w : Nat
  px : Int → Int → Int

/-- An RGB triple. -/
abbrev Rgb := Nat × Nat × Nat

/-- An RGBA quadruple, channel order as stored in the tile. -/
abbrev Rgba := Nat × Nat × Nat × Nat

/-- The RGBA input tile (`np_image` in `segment`). -/
structure Tile where
  h : Nat
  w : Nat
  px : Int → Int → Rgba

/-- `np.zeros(shape, dtype="uint8")` for a given shape. -/
def zeroImg (h w : Nat) : Img := ⟨h, w, fun _ _ => 0⟩

/-- Bounds check for a pixel coordinate. -/
def inRangeB (h w : Nat) (r c : Int) : Bool :=
  decide (0 ≤ r) && decide (r < (h : Int)) && decide (0 ≤ c) && decide (c < (w : Int))

/-- The standard 7x7 structuring element of the source
(`get_standard_struct_elem` / the `SlideSegmenter` default). -/
def structElem : List (List Nat) :=
  [[0, 0, 1, 1, 1, 0, 0],
   [0, 1, 1, 1, 1, 1, 0],
   [1, 1, 1, 1, 1, 1, 1],
   [1, 1, 1, 1, 1, 1, 1],
   [1, 1, 1, 1, 1, 1, 1],
   [0, 1, 1, 1, 1, 1, 0],
   [0, 0, 1, 1, 1, 0, 0]]

/-- The 6x6 `_small_struct_element` built in `AggregateSegmenter.__init__`. -/
def smallStructElem : List (List Nat) :=
  [[0, 1, 1, 1, 1, 0],
   [1, 1, 1, 1, 1, 1],
   [1, 1, 1, 1, 1, 1],
   [1, 1, 1, 1, 1, 1],
   [1, 1, 1, 1, 1, 1],
   [0, 1, 1, 1, 1, 0]]

/-- Offsets of the nonzero kernel entries relative to the anchor `(a, a)`
(OpenCV's default anchor is the kernel centre, `(3,3)` for both elements). -/
def offsetsOf (k : List (List Nat)) (a : Int) : List (Int × Int) :=
  ((k.enum.map (fun ir =>
    (ir.2.enum.filterMap (fun jv =>
      if jv.2 ≠ 0 then some ((ir.1 : Int) - a, (jv.1 : Int) - a) else none)))).flatten)

/-- Anchor-relative offsets of the 7x7 main structuring element. -/
def structOffs : List (Int × Int) := offsetsOf structElem 3

/-- Anchor-relative offsets of the 6x6 small structuring element. -/
def smallOffs : List (Int × Int) := offsetsOf smallStructElem 3

/-- `cv2.dilate` with one iteration: pixelwise maximum of the source over the
in-range kernel offsets (out-of-range neighbours are the neutral 0, matching
OpenCV's `-inf` default border for dilation on uint8 data). -/
def dilate (se : List (Int × Int)) (g : Img) : Img :=
  ⟨g.h, g.w, fun r c =>
    se.foldr (fun o m =>
      if inRangeB g.h g.w (r + o.1) (c + o.2) then
        max (g.px (r + o.1) (c + o.2)) m
      else m) 0⟩

/-- `cv2.erode` with one iteration: pixelwise minimum of the source over the
in-range kernel offsets (out-of-range neighbours are the neutral 255, matching
OpenCV's `+inf` default border for erosion on uint8 data). -/
def erode (se : List (Int × Int)) (g : Img) : Img :=
  ⟨g.h, g.w, fun r c =>
    se.foldr (fun o m =>
      if inRangeB g.h g.w (r + o.1) (c + o.2) then
        min (g.px (r + o.1) (c + o.2)) m
      else m) 255⟩

/-- `n`-fold dilation (`iterations=n`). -/
def dilateN (se : List (Int × Int)) : Nat → Img → Img
  | 0, g => g
  | n + 1, g => dilateN se n (dilate se g)

/-- `n`-fold erosion (`iterations=n`). -/
def erodeN (se : List (Int × Int)) : Nat → Img → Img
  | 0, g => g
  | n + 1, g => erodeN se n (erode se g)

/-- `cv2.morphologyEx(..., cv2.MORPH_CLOSE, se, iterations=n)`:
`n` dilations followed by `n` erosions. -/
def closeN (se : List (Int × Int)) (n : Nat) (g : Img) : Img :=
  erodeN se n (dilateN se n g)

/-- `cv2.morphologyEx(..., cv2.MORPH_OPEN, se, iterations=n)`:
`n` erosions followed by `n` dilations. -/
def openN (se : List (Int × Int)) (n : Nat) (g : Img) : Img :=
  dilateN se n (erodeN se n g)

/-- numpy uint8 subtraction (wraps modulo 256; arguments are below 256). -/
def u8sub (a b : Nat) : Nat := (a + 256 - b) % 256

/-- The border layer of the marker encoder:
`borders = cv2.dilate(internal_binary, struct_elem, iterations=1)` followed by
`borders = borders - internal_binary` (numpy uint8 subtraction). -/
def bordersOf (se : List (Int × Int)) (mask : Img) : Img :=
  ⟨mask.h, mask.w, fun r c => u8sub ((dilate se mask).px r c) (mask.px r c)⟩

/-- The postprocessor's collapse of the flooded marker image to binary:
`markers[np.logical_or(markers < 0, markers == 255)] = 0` followed by
`markers[markers > 0] = 255` and the uint8 cast. -/
def binarizePx (v : Int) : Nat :=
  if v < 0 ∨ v = 255 then 0 else if 0 < v then 255 else 0

/-- scipy boundary mode `reflect` for an axis of length `n`
(`(d c b a | a b c d | d c b a)`, period `2n`). -/
def reflectIdx (n : Nat) (i : Int) : Int :=
  if n = 0 then 0
  else
    let m := i.emod (2 * n)
    if m < (n : Int) then m else 2 * n - 1 - m

/-- The 9x9 window offsets of `maximum_filter(dt, size=9)`. -/
def win9 : List (Int × Int) :=
  ((List.range 9).map (fun i =>
    (List.range 9).map (fun j => ((i : Int) - 4, (j : Int) - 4)))).flatten

/-- `scipy.ndimage.filters.maximum_filter(f, size=9)` at a pixel, with the
default `reflect` boundary mode. -/
def maxFilt (h w : Nat) (f : Int → Int → ℚ) (r c : Int) : ℚ :=
  (win9.map (fun o => f (reflectIdx h (r + o.1)) (reflectIdx w (c + o.2)))).foldr
    max (f (reflectIdx h r) (reflectIdx w c))

/-- The marker mask before background suppression:
`markers = np.zeros(dt.shape).astype(np.uint8)` then
`markers[local_max_ind] = 255` where
`local_max_ind = maximum_filter(dt, size=9) == dt`. -/
def markersRaw (dtf : Int → Int → ℚ) (mask : Img) : Img :=
  ⟨mask.h, mask.w, fun r c =>
    if maxFilt mask.h mask.w dtf r c = dtf r c then 255 else 0⟩

/-- The seed-candidate mask: the raw local-maximum mask after
`markers[internal_binary == 0] = 0` (background maxima discarded). -/
def markerMask (dtf : Int → Int → ℚ) (mask : Img) : Img :=
  ⟨mask.h, mask.w, fun r c =>
    if mask.px r c = 0 then 0 else (markersRaw dtf mask).px r c⟩

/-- The seed blobs:
`markers = cv2.dilate(markers, self._struct_elem, iterations=2)`. -/
def seedBlob (se : List (Int × Int)) (dtf : Int → Int → ℚ) (mask : Img) : Img :=
  dilate se (dilate se (markerMask dtf mask))

/-! ### Connected-component labelling (`scipy.ndimage.measurements.label`)

`label(markers, np.ones((3,3)))` labels the nonzero pixels of `markers` by
8-connectivity, assigning ids `1..N` in raster order of the components and `0`
to the background.  The embedding computes, for each nonzero pixel, the set of
pixels reachable through nonzero 8-neighbours (by a bounded fixed-point
iteration — `h*w` rounds always suffice), takes the raster-order least reached
pixel as the component representative, and numbers the distinct
representatives in increasing raster order. -/

/-- All pixel coordinates of a raster, in raster order. -/
def posList (g : Img) : List (Nat × Nat) :=
  ((List.range g.h).map (fun r => (List.range g.w).map (fun c => (r, c)))).flatten

/-- The pixel value at a `Nat`-indexed position. -/
def pxAt (g : Img) (p : Nat × Nat) : Nat := g.px (p.1 : Int) (p.2 : Int)

/-- The neighbourhood offsets of the `np.ones((3,3))` connectivity structure. -/
def nbhd8 : List (Int × Int) := offsetsOf [[1, 1, 1], [1, 1, 1], [1, 1, 1]] 1

/-- 8-adjacency of two pixel positions (the `3x3` all-ones structure). -/
def adj8B (p q : Nat × Nat) : Bool :=
  nbhd8.contains ((q.1 : Int) - (p.1 : Int), (q.2 : Int) - (p.2 : Int))

/-- One round of the reachability closure: keep the pixels already collected
and add every nonzero pixel 8-adjacent to one of them. -/
def growStep (g : Img) (s : List (Nat × Nat)) : List (Nat × Nat) :=
  (posList g).filter (fun q =>
    s.contains q || (pxAt g q ≠ 0 && s.any (fun p => adj8B p q)))

/-- `n` rounds of the reachability closure. -/
def growN (g : Img) : Nat → List (Nat × Nat) → List (Nat × Nat)
  | 0, s => s
  | n + 1, s => growN g n (growStep g s)

/-- The pixels reachable from `p` through nonzero 8-neighbours. -/
def reachList (g : Img) (p : Nat × Nat) : List (Nat × Nat) :=
  growN g (g.h * g.w) [p]

/-- Raster-order key of a pixel position. -/
def keyOf (w : Nat) (p : Nat × Nat) : Nat := p.1 * w + p.2

/-- Raster-order key of the representative (least reachable pixel) of the
component of `p`. -/
def repKey (g : Img) (p : Nat × Nat) : Nat :=
  ((reachList g p).map (keyOf g.w)).foldr min (keyOf g.w p)

/-- The nonzero pixel positions of a raster. -/
def nzPos (g : Img) : List (Nat × Nat) :=
  (posList g).filter (fun p => pxAt g p ≠ 0)

/-- The distinct component representatives, in order of first appearance. -/
def repsList (g : Img) : List Nat :=
  ((nzPos g).map (repKey g)).dedup

/-- The number of labels `N` returned by `label`. -/
def nLabels (g : Img) : Nat := (repsList g).length

/-- The label id of a nonzero pixel: one plus the number of distinct
representatives strictly below its own in raster order. -/
def labOf (g : Img) (p : Nat × Nat) : Nat :=
  1 + ((repsList g).filter (fun k => decide (k < repKey g p))).length

/-- `scipy.ndimage.measurements.label(markers, np.ones((3,3)))`: the labelled
int32 raster and the label count. -/
def labelGrid (g : Img) : IGrid × Nat :=
  (⟨g.h, g.w, fun r c =>
      if inRangeB g.h g.w r c && decide (g.px r c ≠ 0) then
        ((labOf g (r.toNat, c.toNat) : Nat) : Int)
      else 0⟩,
   nLabels g)

/-! ### Marker encoding (collision-safe palette) -/

/-- `marker_color = 256 if nb_labels < 255 else (nb_labels + 1)`. -/
def markerColor (n : Nat) : Int := if n < 255 then 256 else (n : Int) + 1

/-- `markers[markers == border_color] = marker_color` (the remap step). -/
def encodeStep1 (labs : IGrid) (n : Nat) : IGrid :=
  ⟨labs.h, labs.w, fun r c =>
    if labs.px r c = 255 then markerColor n else labs.px r c⟩

/-- `markers[borders == 255] = border_color` (the border stamping step),
after the remap step. -/
def encodeMarkers (labs : IGrid) (bord : Img) (n : Nat) : IGrid :=
  ⟨labs.h, labs.w, fun r c =>
    if bord.px r c = 255 then 255 else (encodeStep1 labs n).px r c⟩

/-! ### The contour cleaner -/

/-- The exact rational value of the IEEE-754 double `np.pi`. -/
def qpi : ℚ := 884279719003555 / 281474976710656

/-- A contour as the cleaner consumes it: the hierarchy parent index
(`hierarchy[0][i][3]`), the convex-hull attributes computed by
`cv2.convexHull` / `cv2.contourArea` / `cv2.arcLength`, and the hull's filled
pixel region as painted by `cv2.drawContours(..., -1, 255, -1)`. -/
structure Contour where
  parent : Int
  area : ℚ
  perim : ℚ
  region : Int → Int → Bool

/-- `cv2.drawContours(mask, [convex_hull], -1, 255, -1)`: paint the hull's
region with 255. -/
def fillRegion (reg : Int → Int → Bool) (m : Img) : Img :=
  ⟨m.h, m.w, fun r c => if reg r c then 255 else m.px r c⟩

/-- First fill condition: `convex_area < self._cell_max_area / 10`. -/
def condSmallB (amax : ℚ) (k : Contour) : Bool := decide (k.area < amax / 10)

/-- Second fill condition:
`(convex_area < self._cell_max_area/2) and (circularity > self._min_circularity)`
with `circularity = 4 * np.pi * convex_area / (perimeter * perimeter)`. -/
def condCircB (amax cmin : ℚ) (k : Contour) : Bool :=
  decide (k.area < amax / 2) &&
    decide (4 * qpi * k.area / (k.perim * k.perim) > cmin)

/-- The two sequential conditional fills of the loop body (pure part, reached
only when the circularity division did not fault). -/
def stepC (amax cmin : ℚ) (k : Contour) (m : Img) : Img :=
  let m1 := if condSmallB amax k = true then fillRegion k.region m else m
  if condCircB amax cmin k = true then fillRegion k.region m1 else m1

/-- The loop body for one hole contour.  Python computes
`circularity = 4 * np.pi * convex_area / (perimeter * perimeter)` with plain
floats before either fill, so a zero perimeter raises `ZeroDivisionError`
before any fill is applied. -/
def processContour (amax cmin : ℚ) (k : Contour) (m : Img) : Except PyErr Img :=
  if k.perim = 0 then .error .zeroDivisionError
  else .ok (stepC amax cmin k m)

/-- The cleaner's loop `for i in contour_idx: ...` over the hole contours. -/
def fillPass (amax cmin : ℚ) (m : Img) : List Contour → Except PyErr Img
  | [] => .ok m
  | k :: ks =>
    match processContour amax cmin k m with
    | .error e => .error e
    | .ok m1 => fillPass amax cmin m1 ks

/-- `contour_idx = [i for i, h in enumerate(hierarchy[0]) if h[3] >= 0]`:
keep the contours with a parent (the holes). -/
def holesOf (cs : List Contour) : List Contour :=
  cs.filter (fun k => decide (0 ≤ k.parent))

/-! ### Preprocessor -/

/-- The alpha/validity channel:
`alpha = np.array(np_image[:, :, 3]).astype(np.uint8)`. -/
def alphaImg (t : Tile) : Img :=
  ⟨t.h, t.w, fun r c => (t.px r c).2.2.2⟩

/-- The colour channels `np_image[:, :, 0:3]` as stored. -/
def rgbOf (t : Tile) : Int → Int → Rgb :=
  fun r c => ((t.px r c).1, (t.px r c).2.1, (t.px r c).2.2.1)

/-- `cv2.cvtColor(image, cv2.COLOR_BGR2RGB)`: swap the first and third
channels. -/
def bgr2rgb (f : Int → Int → Rgb) : Int → Int → Rgb :=
  fun r c => ((f r c).2.2, (f r c).2.1, (f r c).1)

/-- The grey values of the validity-masked pixels, in raster order. -/
def validVals (g : Int → Int → Nat) (mask : Img) : List Nat :=
  (posList mask).filterMap (fun p =>
    if pxAt mask p ≠ 0 then some (g (p.1 : Int) (p.2 : Int)) else none)

/-- Between-class variance score of splitting the masked grey values at
threshold `t` (classes `≤ t` and `> t`); zero when a class is empty. -/
def otsuScore (vals : List Nat) (t : Nat) : ℚ :=
  let lo := vals.filter (fun v => decide (v ≤ t))
  let hi := vals.filter (fun v => decide (t < v))
  if lo.length = 0 ∨ hi.length = 0 then 0
  else
    let m0 : ℚ := (lo.sum : ℚ) / (lo.length : ℚ)
    let m1 : ℚ := (hi.sum : ℚ) / (hi.length : ℚ)
    (lo.length : ℚ) * (hi.length : ℚ) * (m0 - m1) * (m0 - m1)

/-- The threshold in `0..255` maximising the between-class variance. -/
def otsuArgmax (vals : List Nat) : Nat :=
  (List.range 256).foldl
    (fun best t => if otsuScore vals best < otsuScore vals t then t else best) 0

/-- Modelled from the spec: `otsu_threshold_with_mask` from
`helpers.datamining.segmenter` is imported by both source files but is not
under `src/`.  Per spec sections 4.1 and 6 it computes an Otsu threshold whose
histogram statistic is restricted to the validity-masked pixels, applies it
with `cv2.THRESH_BINARY_INV` polarity (dark pixels become foreground 255),
and returns an empty/zero mask when the validity mask is entirely empty. -/
def otsuModel (g : Int → Int → Nat) (mask : Img) : Nat × Img :=
  let vals := validVals g mask
  if vals.isEmpty = true then (0, zeroImg mask.h mask.w)
  else
    let t := otsuArgmax vals
    (t, ⟨mask.h, mask.w, fun r c =>
      if mask.px r c ≠ 0 ∧ g r c ≤ t then 255 else 0⟩)

/-! ### The oracle record for external primitives -/

/-- The external primitives `segment` calls whose outputs the claims treat as
data: the colour deconvoluter (`self._color_deconvoluter.transform`), the
grayscale conversion (`cv2.cvtColor(..., cv2.COLOR_RGB2GRAY)`),
`cv2.findContours` bundled with the per-contour hull attributes (`none`
models `hierarchy is None`), `cv2.distanceTransform`, and `cv2.watershed`
(which rewrites the marker values in place, so it transforms only the pixel
function). -/
structure CvExt where
  transform : (Int → Int → Rgb) → (Int → Int → Rgb)
  rgb2gray : (Int → Int → Rgb) → (Int → Int → Nat)
  findContours : Img → Option (List Contour)
  dist : Img → (Int → Int → ℚ)
  watershed : (Int → Int → Rgb) → (Int → Int → Int) → (Int → Int → Int)

/-- The deconvolved intensity image of a tile. -/
def decOf (ext : CvExt) (t : Tile) : Int → Int → Rgb :=
  ext.transform (bgr2rgb (rgbOf t))

/-- The initial binary mask `internal_binary` produced by the preprocessor
(colour conversion, deconvolution, grayscale, masked Otsu threshold). -/
def prepBinary (ext : CvExt) (t : Tile) : Img :=
  (otsuModel (ext.rgb2gray (decOf ext t)) (alphaImg t)).2

/-- `image_dec[internal_binary == 0] = [255,255,255]`: whiten the background
of the deconvolved image. -/
def whiten (dec : Int → Int → Rgb) (mask : Img) : Int → Int → Rgb :=
  fun r c => if mask.px r c = 0 then (255, 255, 255) else dec r c

/-- The stages shared verbatim by the two `segment` implementations, from the
contour-cleaner loop to the returned mask: hole filling, closing
(`iterations=1`) and opening (`iterations=2`), distance transform, background
whitening, 9x9 local maxima, masking, double dilation by the main structuring
element, 8-connectivity labelling, border layer, collision-safe marker
encoding, watershed flooding, binarization, and the final erosion by the main
element and dilation by the small element. -/
def coreSeg (ext : CvExt) (se : List (Int × Int)) (amax cmin : ℚ) (t : Tile)
    (cs : List Contour) : Except PyErr Img :=
  match fillPass amax cmin (prepBinary ext t) (holesOf cs) with
  | .error e => .error e
  | .ok ib1 =>
    let ib2 := openN se 2 (closeN se 1 ib1)
    let dtf := ext.dist ib2
    let dec2 := whiten (decOf ext t) ib2
    let blob := seedBlob se dtf ib2
    let lg := labelGrid blob
    let bord := bordersOf se ib2
    let enc := encodeMarkers lg.1 bord lg.2
    let shed := ext.watershed dec2 enc.px
    let binz : Img := ⟨ib2.h, ib2.w, fun r c => binarizePx (shed r c)⟩
    .ok (dilate smallOffs (erode se binz))

/-- `AggregateSegmenter.segment` of
`cytomine-applications/util/dataset/segmenters.py` (lines 125-231): it guards
`if hierarchy is None: return np.zeros(alpha.shape, dtype="uint8")` before the
cleaner loop. -/
def segUtil (ext : CvExt) (se : List (Int × Int)) (amax cmin : ℚ) (t : Tile) :
    Except PyErr Img :=
  match ext.findContours (prepBinary ext t) with
  | none => .ok (zeroImg t.h t.w)
  | some cs => coreSeg ext se amax cmin t cs

/-- `AggregateSegmenter.segment` of
`cytomine-datamining/algorithms/thyroid/aggregate_processing.py`
(lines 38-142): line-identical to `segUtil` except that it has no `None`
guard, so `enumerate(hierarchy[0])` raises a `TypeError` when
`cv2.findContours` found no contours. -/
def segThyroid (ext : CvExt) (se : List (Int × Int)) (amax cmin : ℚ) (t : Tile) :
    Except PyErr Img :=
  match ext.findContours (prepBinary ext t) with
  | none => .error .typeError
  | some cs => coreSeg ext se amax cmin t cs

/-! ### Boolean raster predicates and concrete instances -/

/-- Every in-range pixel is zero. -/
def allZeroB (g : Img) : Bool := (posList g).all (fun p => pxAt g p == 0)

/-- Every in-range pixel is 0 or 255 (a binary mask). -/
def isBinaryB (g : Img) : Bool :=
  (posList g).all (fun p => pxAt g p == 0 || pxAt g p == 255)

/-- The tile's validity channel is entirely zero. -/
def alphaZeroB (t : Tile) : Bool := allZeroB (alphaImg t)

/-- Extract the image of an `ok` result (degenerate default otherwise). -/
def okOr (e : Except PyErr Img) : Img :=
  match e with
  | .ok m => m
  | .error _ => zeroImg 0 0

/-- An oracle whose contour extraction finds nothing (`hierarchy is None`). -/
def extNone : CvExt :=
  ⟨id, fun _ _ _ => 0, fun _ => none, fun _ _ _ => 0, fun _ m => m⟩

/-- An oracle whose contour extraction finds an empty contour list. -/
def extSome : CvExt :=
  ⟨id, fun _ _ _ => 0, fun _ => some [], fun _ _ _ => 0, fun _ m => m⟩

/-- A hole contour whose convex hull is a single point: hull area 0 and hull
perimeter 0 (`cv2.contourArea` and `cv2.arcLength` of a one-point hull). -/
def cHole : Contour := ⟨0, 0, 0, fun _ _ => false⟩

/-- An oracle whose contour extraction finds exactly the degenerate hole. -/
def extHole : CvExt :=
  ⟨id, fun _ _ _ => 0, fun _ => some [cHole], fun _ _ _ => 0, fun _ m => m⟩

/-- A 3x3 tile with opaque alpha. -/
def tileA : Tile := ⟨3, 3, fun _ _ => (0, 0, 0, 255)⟩

/-- A 2x2 tile whose validity channel is entirely zero. -/
def tileZ : Tile := ⟨2, 2, fun _ _ => (0, 0, 0, 0)⟩

/-- A hole contour satisfying both fill conditions at the default parameters:
hull area 100 and hull perimeter 6, so circularity is about 34.9. -/
def kBoth : Contour := ⟨0, 100, 6, fun _ _ => false⟩

/-- A 1x1 int32 label raster holding label id 255. -/
def labs255 : IGrid := ⟨1, 1, fun _ _ => 255⟩

/-- A 1x1 border raster holding no border pixel. -/
def bordZ : Img := ⟨1, 1, fun _ _ => 0⟩

/-- A 1x1 all-foreground binary mask. -/
def imgOne : Img := ⟨1, 1, fun _ _ => 255⟩

/-- A constant-zero distance field. -/
def dtfZ : Int → Int → ℚ := fun _ _ => 0

/-- A 2x2 binary mask with a single foreground pixel. -/
def maskB : Img := ⟨2, 2, fun r c => if r = 0 ∧ c = 0 then 255 else 0⟩

/-! ### Helper lemmas -/

theorem mem_posList {g : Img} {p : Nat × Nat} :
    p ∈ posList g ↔ p.1 < g.h ∧ p.2 < g.w := by
  cases p with
  | mk a b =>
    simp only [posList, List.mem_flatten, List.mem_map, List.mem_range]
    constructor
    · rintro ⟨l, ⟨r, hr, rfl⟩, hm⟩
      rcases List.mem_map.mp hm with ⟨c, hc, hpc⟩
      cases hpc
      exact ⟨hr, List.mem_range.mp hc⟩
    · rintro ⟨ha, hb⟩
      exact ⟨(List.range g.w).map (fun c => (a, c)), ⟨a, ha, rfl⟩,
        List.mem_map.mpr ⟨b, List.mem_range.mpr hb, rfl⟩⟩

theorem inRangeB_iff {h w : Nat} {r c : Int} :
    inRangeB h w r c = true ↔
      0 ≤ r ∧ r < (h : Int) ∧ 0 ≤ c ∧ c < (w : Int) := by
  simp [inRangeB, Bool.and_eq_true, decide_eq_true_eq, and_assoc]

theorem px_toNat {g : Img} {r c : Int} (hr : 0 ≤ r) (hc : 0 ≤ c) :
    pxAt g (r.toNat, c.toNat) = g.px r c := by
  simp [pxAt, Int.toNat_of_nonneg hr, Int.toNat_of_nonneg hc]

theorem allZero_px {g : Img} (h : allZeroB g = true) {r c : Int}
    (hin : inRangeB g.h g.w r c = true) : g.px r c = 0 := by
  rcases inRangeB_iff.mp hin with ⟨h1, h2, h3, h4⟩
  have hmem : (r.toNat, c.toNat) ∈ posList g :=
    mem_posList.mpr ⟨by omega, by omega⟩
  have := List.all_eq_true.mp h _ hmem
  rw [px_toNat h1 h3] at this
  simpa using this

theorem binary_px {g : Img} (h : isBinaryB g = true) {r c : Int}
    (hin : inRangeB g.h g.w r c = true) : g.px r c = 0 ∨ g.px r c = 255 := by
  rcases inRangeB_iff.mp hin with ⟨h1, h2, h3, h4⟩
  have hmem : (r.toNat, c.toNat) ∈ posList g :=
    mem_posList.mpr ⟨by omega, by omega⟩
  have := List.all_eq_true.mp h _ hmem
  rw [px_toNat h1 h3] at this
  simpa using this

theorem foldr_guard_le {α : Type} {l : List α} (cnd : α → Bool) (f : α → Nat)
    (init : Nat) {o : α} (ho : o ∈ l) (hc : cnd o = true) :
    f o ≤ l.foldr (fun x m => if cnd x then max (f x) m else m) init := by
  induction l with
  | nil => cases ho
  | cons x xs ih =>
    rcases List.mem_cons.mp ho with h | h
    · subst h
      simp [hc]
    · have hx := ih h
      by_cases hcx : cnd x = true
      · simp only [List.foldr_cons, hcx, if_true]
        exact le_max_of_le_right hx
      · simp only [List.foldr_cons, hcx, if_false]
        exact hx

theorem foldr_guard_pres {α : Type} (P : Nat → Prop) (op : Nat → Nat → Nat)
    (hop : ∀ a b, P a → P b → P (op a b)) {l : List α} (cnd : α → Bool)
    (f : α → Nat) {init : Nat} (hi : P init)
    (hf : ∀ o ∈ l, cnd o = true → P (f o)) :
    P (l.foldr (fun x m => if cnd x then op (f x) m else m) init) := by
  induction l with
  | nil => exact hi
  | cons x xs ih =>
    have hx := ih (fun o ho hc => hf o (List.mem_cons_of_mem _ ho) hc)
    by_cases hcx : cnd x = true
    · simp only [List.foldr_cons, hcx, if_true]
      exact hop _ _ (hf x (List.mem_cons_self _ _) hcx) hx
    · simp only [List.foldr_cons, hcx, if_false]
      exact hx

/-! ### Fill-pass machinery (contour cleaner) -/

/-- No contour of the list has a zero hull perimeter. -/
def allPerimNZ (ks : List Contour) : Bool :=
  ks.all (fun k => !decide (k.perim = 0))

/-- A contour is selected for filling when either condition fires. -/
def selB (amax cmin : ℚ) (k : Contour) : Bool :=
  condSmallB amax k || condCircB amax cmin k

/-- The union of the hull regions of the selected contours. -/
def unionSel (amax cmin : ℚ) (ks : List Contour) : Int → Int → Bool :=
  fun r c => ks.any (fun k => selB amax cmin k && k.region r c)

theorem fillRegion_fillRegion (reg : Int → Int → Bool) (m : Img) :
    fillRegion reg (fillRegion reg m) = fillRegion reg m := by
  unfold fillRegion
  ext r c
  · rfl
  · rfl
  · by_cases h : reg r c = true <;> simp [h]

theorem stepC_eq_sel (amax cmin : ℚ) (k : Contour) (m : Img) :
    stepC amax cmin k m =
      if selB amax cmin k = true then fillRegion k.region m else m := by
  unfold stepC selB
  by_cases h1 : condSmallB amax k = true <;>
    by_cases h2 : condCircB amax cmin k = true <;>
      simp [h1, h2, fillRegion_fillRegion]

theorem fillRegion_union_absorb (regA regB : Int → Int → Bool) (m : Img)
    (f : Int → Int → Bool)
    (hf : ∀ r c, f r c = (regA r c || regB r c)) :
    fillRegion regA (fillRegion regB m) = fillRegion f m := by
  unfold fillRegion
  ext r c
  · rfl
  · rfl
  · dsimp only
    rw [hf]
    by_cases hA : regA r c = true <;> by_cases hB : regB r c = true <;>
      simp [hA, hB]

theorem foldl_stepC_norm (amax cmin : ℚ) (ks : List Contour) (m : Img) :
    ks.foldl (fun acc k => stepC amax cmin k acc) m =
      fillRegion (unionSel amax cmin ks) m := by
  induction ks generalizing m with
  | nil =>
    unfold unionSel fillRegion
    ext r c
    · rfl
    · rfl
    · simp
  | cons k ks ih =>
    rw [List.foldl_cons, ih, stepC_eq_sel]
    by_cases hk : selB amax cmin k = true
    · rw [if_pos hk]
      refine fillRegion_union_absorb _ _ _ _ (fun r c => ?_)
      unfold unionSel
      simp [hk, Bool.or_comm]
    · rw [if_neg hk]
      unfold unionSel fillRegion
      ext r c
      · rfl
      · rfl
      · have hk' : selB amax cmin k = false := by
          revert hk
          cases selB amax cmin k <;> simp
        simp [hk']

theorem fillPass_ok_of (amax cmin : ℚ) (ks : List Contour) (m : Img)
    (h : allPerimNZ ks = true) :
    fillPass amax cmin m ks =
      .ok (ks.foldl (fun acc k => stepC amax cmin k acc) m) := by
  induction ks generalizing m with
  | nil => rfl
  | cons k ks ih =>
    have hk : (k.perim = 0) = False := by
      have := List.all_eq_true.mp h k (List.mem_cons_self _ _)
      simp only [Bool.not_eq_true', decide_eq_false_iff_not] at this
      simp [this]
    have hks : allPerimNZ ks = true := by
      apply List.all_eq_true.mpr
      intro x hx
      exact List.all_eq_true.mp h x (List.mem_cons_of_mem _ hx)
    unfold fillPass processContour
    rw [if_neg (by simp [hk])]
    show fillPass amax cmin (stepC amax cmin k m) ks = _
    rw [ih _ hks, List.foldl_cons]

theorem fillPass_err_of (amax cmin : ℚ) (ks : List Contour) (m : Img)
    (h : allPerimNZ ks = false) :
    fillPass amax cmin m ks = .error .zeroDivisionError := by
  induction ks generalizing m with
  | nil => simp [allPerimNZ] at h
  | cons k ks ih =>
    unfold fillPass processContour
    by_cases hk : k.perim = 0
    · rw [if_pos hk]
    · rw [if_neg hk]
      show fillPass amax cmin (stepC amax cmin k m) ks = _
      have hks : allPerimNZ ks = false := by
        by_contra hc
        have hks' : allPerimNZ ks = true := by
          revert hc
          cases allPerimNZ ks <;> simp
        have : allPerimNZ (k :: ks) = true := by
          apply List.all_eq_true.mpr
          intro x hx
          rcases List.mem_cons.mp hx with h1 | h1
          · subst h1
            simp [hk]
          · exact List.all_eq_true.mp hks' x h1
        rw [this] at h
        cases h
      exact ih _ hks

/-! ### Shape-preservation lemmas -/

theorem stepC_shape (amax cmin : ℚ) (k : Contour) (m : Img) :
    (stepC amax cmin k m).h = m.h ∧ (stepC amax cmin k m).w = m.w := by
  rw [stepC_eq_sel]
  by_cases h : selB amax cmin k = true <;> simp [h, fillRegion]

theorem fillPass_shape (amax cmin : ℚ) (ks : List Contour) (m m1 : Img)
    (h : fillPass amax cmin m ks = .ok m1) : m1.h = m.h ∧ m1.w = m.w := by
  induction ks generalizing m with
  | nil =>
    cases h
    exact ⟨rfl, rfl⟩
  | cons k ks ih =>
    unfold fillPass processContour at h
    by_cases hk : k.perim = 0
    · rw [if_pos hk] at h
      exact (Except.noConfusion h)
    · rw [if_neg hk] at h
      have h' : fillPass amax cmin (stepC amax cmin k m) ks = .ok m1 := h
      have := ih _ h'
      rcases stepC_shape amax cmin k m with ⟨e1, e2⟩
      omega

theorem dilateN_shape (se : List (Int × Int)) (n : Nat) (g : Img) :
    (dilateN se n g).h = g.h ∧ (dilateN se n g).w = g.w := by
  induction n generalizing g with
  | zero => exact ⟨rfl, rfl⟩
  | succ n ih =>
    have := ih (dilate se g)
    simpa [dilateN, dilate] using this

theorem erodeN_shape (se : List (Int × Int)) (n : Nat) (g : Img) :
    (erodeN se n g).h = g.h ∧ (erodeN se n g).w = g.w := by
  induction n generalizing g with
  | zero => exact ⟨rfl, rfl⟩
  | succ n ih =>
    have := ih (erode se g)
    simpa [erodeN, erode] using this

theorem openN_shape (se : List (Int × Int)) (n : Nat) (g : Img) :
    (openN se n g).h = g.h ∧ (openN se n g).w = g.w := by
  unfold openN
  rcases dilateN_shape se n (erodeN se n g) with ⟨e1, e2⟩
  rcases erodeN_shape se n g with ⟨e3, e4⟩
  omega

theorem closeN_shape (se : List (Int × Int)) (n : Nat) (g : Img) :
    (closeN se n g).h = g.h ∧ (closeN se n g).w = g.w := by
  unfold closeN
  rcases erodeN_shape se n (dilateN se n g) with ⟨e1, e2⟩
  rcases dilateN_shape se n g with ⟨e3, e4⟩
  omega

theorem otsuModel_shape (g : Int → Int → Nat) (mask : Img) :
    (otsuModel g mask).2.h = mask.h ∧ (otsuModel g mask).2.w = mask.w := by
  unfold otsuModel
  by_cases h : (validVals g mask).isEmpty = true <;> simp [h, zeroImg]

theorem prepBinary_shape (ext : CvExt) (t : Tile) :
    (prepBinary ext t).h = t.h ∧ (prepBinary ext t).w = t.w := by
  unfold prepBinary
  exact otsuModel_shape _ _

/-! ### Labelling lemmas -/

theorem filter_lt_length_of_mem {a : Nat} {l : List Nat} (h : a ∈ l) :
    (l.filter (fun k => decide (k < a))).length < l.length := by
  induction l with
  | nil => cases h
  | cons x xs ih =>
    rcases List.mem_cons.mp h with h1 | h1
    · subst h1
      have hlt := List.length_filter_le (fun k => decide (k < a)) xs
      simp only [List.filter_cons, decide_eq_true_eq, Nat.lt_irrefl, if_false,
        List.length_cons]
      omega
    · have := ih h1
      by_cases hx : x < a
      · simp only [List.filter_cons, decide_eq_true_eq, hx, if_true,
          List.length_cons]
        omega
      · simp only [List.filter_cons, decide_eq_true_eq, hx, if_false,
          List.length_cons]
        omega

theorem repKey_mem_repsList {g : Img} {p : Nat × Nat} (hp : p ∈ nzPos g) :
    repKey g p ∈ repsList g :=
  List.mem_dedup.mpr (List.mem_map_of_mem _ hp)

theorem labOf_le_nLabels {g : Img} {p : Nat × Nat} (hp : p ∈ nzPos g) :
    labOf g p ≤ nLabels g := by
  unfold labOf nLabels
  have := filter_lt_length_of_mem (repKey_mem_repsList hp)
  omega

theorem labelGrid_px_zero (g : Img) (r c : Int) (h : g.px r c = 0) :
    (labelGrid g).1.px r c = 0 := by
  unfold labelGrid
  simp [h]

theorem labelGrid_px_range (g : Img) (r c : Int)
    (hin : inRangeB g.h g.w r c = true) (hnz : g.px r c ≠ 0) :
    1 ≤ (labelGrid g).1.px r c ∧
      (labelGrid g).1.px r c ≤ ((labelGrid g).2 : Int) := by
  unfold labelGrid
  simp only [hin, hnz, ne_eq, not_false_eq_true, decide_True, Bool.and_self,
    if_true]
  rcases inRangeB_iff.mp hin with ⟨h1, h2, h3, h4⟩
  have hmem : (r.toNat, c.toNat) ∈ nzPos g := by
    apply List.mem_filter.mpr
    constructor
    · exact mem_posList.mpr ⟨by omega, by omega⟩
    · simp only [decide_eq_true_eq]
      rw [px_toNat h1 h3]
      exact hnz
  constructor
  · have : 1 ≤ labOf g (r.toNat, c.toNat) := by
      unfold labOf
      omega
    exact_mod_cast this
  · have := labOf_le_nLabels hmem
    exact_mod_cast this

/-! ### Postprocessor and preprocessor lemmas -/

theorem binarizePx_mem (v : Int) : binarizePx v = 0 ∨ binarizePx v = 255 := by
  unfold binarizePx
  by_cases h1 : v < 0 ∨ v = 255
  · simp [h1]
  · by_cases h2 : 0 < v <;> simp [h1, h2]

theorem erode_px_mem (se : List (Int × Int)) (g : Img)
    (hg : ∀ r c : Int, g.px r c = 0 ∨ g.px r c = 255) (r c : Int) :
    (erode se g).px r c = 0 ∨ (erode se g).px r c = 255 := by
  unfold erode
  exact foldr_guard_pres (fun v => v = 0 ∨ v = 255) min
    (fun a b ha hb => by rcases ha with ha | ha <;> rcases hb with hb | hb <;>
      simp [ha, hb, min_def])
    _ _ (Or.inr rfl) (fun o _ _ => hg _ _)

theorem dilate_px_mem (se : List (Int × Int)) (g : Img)
    (hg : ∀ r c : Int, g.px r c = 0 ∨ g.px r c = 255) (r c : Int) :
    (dilate se g).px r c = 0 ∨ (dilate se g).px r c = 255 := by
  unfold dilate
  exact foldr_guard_pres (fun v => v = 0 ∨ v = 255) max
    (fun a b ha hb => by rcases ha with ha | ha <;> rcases hb with hb | hb <;>
      simp [ha, hb, max_def])
    _ _ (Or.inl rfl) (fun o _ _ => hg _ _)

theorem validVals_nil_of_allZero (g : Int → Int → Nat) (mask : Img)
    (h : allZeroB mask = true) : validVals g mask = [] := by
  unfold validVals
  apply List.filterMap_eq_nil_iff.mpr
  intro p hp
  have := List.all_eq_true.mp h p hp
  simp only [beq_iff_eq] at this
  simp [this]

theorem allZeroB_zeroImg (h w : Nat) : allZeroB (zeroImg h w) = true := by
  apply List.all_eq_true.mpr
  intro p _
  simp [pxAt, zeroImg]

theorem prepBinary_zero_of_alphaZero (ext : CvExt) (t : Tile)
    (ha : alphaZeroB t = true) : prepBinary ext t = zeroImg t.h t.w := by
  unfold prepBinary otsuModel
  have hv :=
    validVals_nil_of_allZero (ext.rgb2gray (decOf ext t)) (alphaImg t) ha
  rw [hv]
  rfl

/-- The dimension/value invariant of the shared pipeline core: any `ok`
result has the tile's spatial dimensions and only pixel values 0 and 255. -/
theorem coreSeg_inv (ext : CvExt) (se : List (Int × Int)) (amax cmin : ℚ)
    (t : Tile) (cs : List Contour) (res : Img)
    (h : coreSeg ext se amax cmin t cs = .ok res) :
    res.h = t.h ∧ res.w = t.w ∧
      ∀ r c : Int, res.px r c = 0 ∨ res.px r c = 255 := by
  unfold coreSeg at h
  rcases hfp : fillPass amax cmin (prepBinary ext t) (holesOf cs) with e | ib1
  · rw [hfp] at h
    exact (Except.noConfusion h)
  · rw [hfp] at h
    have hres := Except.ok.inj h
    subst hres
    have hshape1 := fillPass_shape amax cmin (holesOf cs) _ _ hfp
    have hshape2 := prepBinary_shape ext t
    have hshape3 := closeN_shape se 1 ib1
    have hshape4 := openN_shape se 2 (closeN se 1 ib1)
    refine ⟨?_, ?_, ?_⟩
    · show (openN se 2 (closeN se 1 ib1)).h = t.h
      omega
    · show (openN se 2 (closeN se 1 ib1)).w = t.w
      omega
    · intro r c
      apply dilate_px_mem
      intro r1 c1
      apply erode_px_mem
      intro r2 c2
      exact binarizePx_mem _

/-! ### Claim theorems -/

/-- C1 (amended): on every input whose contour extraction finds no
contours/hierarchy, the dataset-util `AggregateSegmenter.segment`
(`segmenters.py`) terminates early and returns an all-zero mask with the
tile's spatial shape without raising, while the thyroid implementation
(`aggregate_processing.py`) instead raises a TypeError by subscripting the
`None` hierarchy; the claimed behaviour holds only for the former. -/
theorem c1_no_contours_paths (ext : CvExt) (se : List (Int × Int))
    (amax cmin : ℚ) (t : Tile)
    (h : ext.findContours (prepBinary ext t) = none) :
    segUtil ext se amax cmin t = .ok (zeroImg t.h t.w) ∧
      segThyroid ext se amax cmin t = .error .typeError := by
  unfold segUtil segThyroid
  rw [h]
  exact ⟨rfl, rfl⟩

/-- C1 witness: a concrete oracle/tile pair on which contour extraction finds
nothing, with the two behaviours delivered by the theorem. -/
theorem c1_no_contours_paths_witness :
    extNone.findContours (prepBinary extNone tileA) = none ∧
      (segUtil extNone structOffs 4000 (4 / 5) tileA =
          .ok (zeroImg tileA.h tileA.w) ∧
        segThyroid extNone structOffs 4000 (4 / 5) tileA =
          .error .typeError) :=
  ⟨rfl, c1_no_contours_paths extNone structOffs 4000 (4 / 5) tileA rfl⟩

/-- C1 counterexample: the claim as stated says both implementations return
an all-zero mask and never raise; on a concrete no-contour input the thyroid
implementation raises (models `TypeError` on `hierarchy[0]`). -/
theorem c1_thyroid_raises_cex :
    extNone.findContours (prepBinary extNone tileA) = none ∧
      segThyroid extNone structOffs 4000 (4 / 5) tileA = .error .typeError :=
  ⟨rfl, rfl⟩

/-- C2: after the marker-encoding step no pixel carrying a true seed label id
equals the border sentinel 255: with label values in `0..N`, a pixel holding
label 255 (possible only when `N ≥ 255`) is first remapped to `N + 1`, a
value exceeding every real label id, and 255 is only afterwards written into
the border pixels, so every non-border pixel of the encoded marker image
differs from 255. -/
theorem c2_collision_safe (labs : IGrid) (bord : Img) (n : Nat) (r c : Int)
    (_h0 : 0 ≤ labs.px r c) (hn : labs.px r c ≤ (n : Int)) :
    (255 ≤ n → labs.px r c = 255 →
        (encodeStep1 labs n).px r c = (n : Int) + 1) ∧
      ((n : Int) < (n : Int) + 1) ∧
      (bord.px r c ≠ 255 → (encodeMarkers labs bord n).px r c ≠ 255) := by
  unfold encodeMarkers encodeStep1 markerColor
  dsimp only
  refine ⟨?_, by omega, ?_⟩
  · intro h255 hpx
    rw [if_pos hpx, if_neg (by omega)]
  · intro hb
    rw [if_neg hb]
    by_cases hpx : labs.px r c = 255
    · rw [if_pos hpx]
      by_cases hsmall : n < 255
      · rw [if_pos hsmall]
        omega
      · rw [if_neg hsmall]
        omega
    · rw [if_neg hpx]
      exact hpx

/-- C2 witness: the constructible test of the spec with `N = 300`: a pixel
holding label 255 is remapped to 301 and stays distinguishable from border
pixels. -/
theorem c2_collision_safe_witness :
    (0 ≤ labs255.px 0 0 ∧ labs255.px 0 0 ≤ (300 : Int)) ∧
      ((255 ≤ 300 → labs255.px 0 0 = 255 →
          (encodeStep1 labs255 300).px 0 0 = (300 : Int) + 1) ∧
        ((300 : Int) < (300 : Int) + 1) ∧
        (bordZ.px 0 0 ≠ 255 → (encodeMarkers labs255 bordZ 300).px 0 0 ≠ 255)) :=
  ⟨⟨by decide, by decide⟩,
    c2_collision_safe labs255 bordZ 300 0 0 (by decide) (by decide)⟩

/-- C3 (code bug): a hole contour whose convex-hull perimeter is zero makes
`circularity = 4 * np.pi * convex_area / (perimeter * perimeter)` a Python
float division by zero, so the loop body raises `ZeroDivisionError` before
either fill is applied, and the fault propagates out of `segment` — the code
does not, as the spec requires, treat such a contour as merely failing the
circularity condition. -/
theorem c3_zero_perimeter_divfault :
    (∀ (amax cmin : ℚ) (k : Contour) (m : Img), k.perim = 0 →
        processContour amax cmin k m = .error .zeroDivisionError) ∧
      segUtil extHole structOffs 4000 (4 / 5) tileA =
        .error .zeroDivisionError := by
  constructor
  · intro amax cmin k m hk
    unfold processContour
    rw [if_pos hk]
  · rfl

/-- C3 witness: the degenerate single-point hull (area 0, perimeter 0) makes
the loop body fault. -/
theorem c3_zero_perimeter_divfault_witness :
    cHole.perim = 0 ∧
      processContour 4000 (4 / 5) cHole (zeroImg 3 3) =
        .error .zeroDivisionError :=
  ⟨rfl, c3_zero_perimeter_divfault.1 4000 (4 / 5) cHole (zeroImg 3 3) rfl⟩

/-- C4 (amended): when the tile's validity channel is entirely zero and
contour extraction finds nothing on an all-zero mask, the dataset-util
implementation returns an all-zero mask with the tile's spatial dimensions,
while the thyroid implementation raises a TypeError; the modelled masked-Otsu
preprocessor yields the all-zero initial mask on an empty validity mask. -/
theorem c4_empty_alpha (ext : CvExt) (se : List (Int × Int)) (amax cmin : ℚ)
    (t : Tile)
    (hfc : ∀ g : Img, allZeroB g = true → ext.findContours g = none)
    (ha : alphaZeroB t = true) :
    segUtil ext se amax cmin t = .ok (zeroImg t.h t.w) ∧
      allZeroB (zeroImg t.h t.w) = true ∧
      segThyroid ext se amax cmin t = .error .typeError := by
  have hb := prepBinary_zero_of_alphaZero ext t ha
  have hz := allZeroB_zeroImg t.h t.w
  have hnone : ext.findContours (prepBinary ext t) = none := by
    rw [hb]
    exact hfc _ hz
  unfold segUtil segThyroid
  rw [hnone]
  exact ⟨rfl, hz, rfl⟩

/-- C4 witness: a concrete all-transparent tile with an oracle that finds no
contours in all-zero masks. -/
theorem c4_empty_alpha_witness :
    alphaZeroB tileZ = true ∧
      (segUtil extNone structOffs 4000 (4 / 5) tileZ =
          .ok (zeroImg tileZ.h tileZ.w) ∧
        allZeroB (zeroImg tileZ.h tileZ.w) = true ∧
        segThyroid extNone structOffs 4000 (4 / 5) tileZ =
          .error .typeError) :=
  ⟨by decide,
    c4_empty_alpha extNone structOffs 4000 (4 / 5) tileZ (fun _ _ => rfl)
      (by decide)⟩

/-- C4 counterexample: on a concrete entirely-transparent tile the thyroid
implementation raises instead of returning the all-zero mask the claim
asserts for both implementations. -/
theorem c4_thyroid_raises_cex :
    alphaZeroB tileZ = true ∧
      segThyroid extNone structOffs 4000 (4 / 5) tileZ = .error .typeError :=
  ⟨by decide, rfl⟩

/-- C5 (amended): on every input on which BOTH duplicated implementations
return, they return the same mask — the two bodies are line-identical apart
from the `None`-hierarchy guard, so they agree whenever the thyroid copy does
not raise. -/
theorem c5_equiv_when_both_ok (ext : CvExt) (se : List (Int × Int))
    (amax cmin : ℚ) (t : Tile) (r1 r2 : Img)
    (h1 : segUtil ext se amax cmin t = .ok r1)
    (h2 : segThyroid ext se amax cmin t = .ok r2) : r1 = r2 := by
  unfold segUtil at h1
  unfold segThyroid at h2
  rcases hfc : ext.findContours (prepBinary ext t) with _ | cs
  · rw [hfc] at h2
    exact (Except.noConfusion h2)
  · rw [hfc] at h1 h2
    rw [h1] at h2
    exact Except.ok.inj h2

/-- C5 witness: a concrete oracle/tile pair on which both implementations
return, with the equal results extracted from each. -/
theorem c5_equiv_when_both_ok_witness :
    okOr (segUtil extSome structOffs 4000 (4 / 5) tileA) =
      okOr (segThyroid extSome structOffs 4000 (4 / 5) tileA) :=
  c5_equiv_when_both_ok extSome structOffs 4000 (4 / 5) tileA
    (okOr (segUtil extSome structOffs 4000 (4 / 5) tileA))
    (okOr (segThyroid extSome structOffs 4000 (4 / 5) tileA)) rfl rfl

/-- C5 counterexample: a concrete input on which one implementation returns
(an all-zero mask) while the other raises, refuting the claim that whenever
either returns, both return the same mask. -/
theorem c5_divergent_cex :
    segUtil extNone structOffs 4000 (4 / 5) tileA = .ok (zeroImg 3 3) ∧
      segThyroid extNone structOffs 4000 (4 / 5) tileA = .error .typeError :=
  ⟨rfl, rfl⟩

/-- C6: the contour cleaner's hole filling is idempotent — for every mask and
every fixed list of hole contours, running the fill pass a second time on the
first pass's output changes nothing — and the two fill conditions are
evaluated independently and can both fire on the same contour (witnessed at
the default parameters `cell_max_area = 4000`, `cell_min_circularity = 0.8`). -/
theorem c6_fill_idempotent_nonexclusive :
    (∀ (amax cmin : ℚ) (m : Img) (ks : List Contour),
        (fillPass amax cmin m ks).bind (fun m2 => fillPass amax cmin m2 ks) =
          fillPass amax cmin m ks) ∧
      (condSmallB 4000 kBoth = true ∧ condCircB 4000 (4 / 5) kBoth = true) := by
  constructor
  · intro amax cmin m ks
    rcases hall : allPerimNZ ks with _ | _
    · rw [fillPass_err_of amax cmin ks m hall]
      rfl
    · rw [fillPass_ok_of amax cmin ks m hall]
      show fillPass amax cmin _ ks = _
      rw [fillPass_ok_of amax cmin ks _ hall]
      rw [foldl_stepC_norm, foldl_stepC_norm, fillRegion_fillRegion]
  · constructor
    · simp only [condSmallB, kBoth, decide_eq_true_eq]
      norm_num
    · simp only [condCircB, kBoth, decide_eq_true_eq, Bool.and_eq_true]
      norm_num [qpi]

/-- C8: in the seed extractor, a pixel of the marker mask is a seed candidate
(value 255) iff its distance value equals the 9x9 sliding-maximum output and
it is foreground of the smoothed mask; the seed blobs are the candidates
dilated twice by the main structuring element; and the connected-component
labelling (3x3 all-ones, 8-connectivity) maps background to 0 and every
nonzero blob pixel to a label id in `1..N`. -/
theorem c8_seed_extractor (dtf : Int → Int → ℚ) (mask : Img)
    (se : List (Int × Int)) (r c : Int) :
    ((markerMask dtf mask).px r c = 255 ↔
        (maxFilt mask.h mask.w dtf r c = dtf r c ∧ mask.px r c ≠ 0)) ∧
      (seedBlob se dtf mask = dilate se (dilate se (markerMask dtf mask))) ∧
      (inRangeB (seedBlob se dtf mask).h (seedBlob se dtf mask).w r c = true →
        ((seedBlob se dtf mask).px r c = 0 →
            (labelGrid (seedBlob se dtf mask)).1.px r c = 0) ∧
          ((seedBlob se dtf mask).px r c ≠ 0 →
            1 ≤ (labelGrid (seedBlob se dtf mask)).1.px r c ∧
              (labelGrid (seedBlob se dtf mask)).1.px r c ≤
                ((labelGrid (seedBlob se dtf mask)).2 : Int))) := by
  refine ⟨?_, rfl, ?_⟩
  · unfold markerMask markersRaw
    dsimp only
    by_cases hz : mask.px r c = 0
    · simp [hz]
    · by_cases hmax : maxFilt mask.h mask.w dtf r c = dtf r c
      · simp [hz, hmax]
      · simp [hz, hmax]
  · intro hin
    constructor
    · intro hz
      exact labelGrid_px_zero _ r c hz
    · intro hnz
      exact labelGrid_px_range _ r c hin hnz

set_option maxRecDepth 8000

/-- C8 witness: a 1x1 all-foreground mask with a constant distance field: the
single pixel is a candidate, the blob pixel is nonzero, and its label id lies
in `1..N`. -/
theorem c8_seed_extractor_witness :
    inRangeB (seedBlob structOffs dtfZ imgOne).h
        (seedBlob structOffs dtfZ imgOne).w 0 0 = true ∧
      (seedBlob structOffs dtfZ imgOne).px 0 0 ≠ 0 ∧
      (1 ≤ (labelGrid (seedBlob structOffs dtfZ imgOne)).1.px 0 0 ∧
        (labelGrid (seedBlob structOffs dtfZ imgOne)).1.px 0 0 ≤
          ((labelGrid (seedBlob structOffs dtfZ imgOne)).2 : Int)) :=
  ⟨by decide, by decide,
    ((c8_seed_extractor dtfZ imgOne structOffs 0 0).2.2 (by decide)).2
      (by decide)⟩

/-- C9: the border layer (one dilation of the smoothed binary mask minus the
undilated mask, in uint8 arithmetic) is disjoint from the foreground: the
dilation is extensive (the structuring element contains its anchor), so the
subtraction never wraps, every border value is 0 or 255, and a nonzero border
pixel is background of the mask. -/
theorem c9_border_disjoint (se : List (Int × Int)) (mask : Img) (r c : Int)
    (h0 : (0, 0) ∈ se) (hb : isBinaryB mask = true)
    (hin : inRangeB mask.h mask.w r c = true) :
    (mask.px r c = 255 → (dilate se mask).px r c = 255) ∧
      ((bordersOf se mask).px r c ≠ 0 → mask.px r c = 0) ∧
      ((bordersOf se mask).px r c = 0 ∨ (bordersOf se mask).px r c = 255) := by
  have hpx : ∀ rr cc : Int, inRangeB mask.h mask.w rr cc = true →
      mask.px rr cc = 0 ∨ mask.px rr cc = 255 := fun rr cc hc => binary_px hb hc
  have hd : (dilate se mask).px r c = 0 ∨ (dilate se mask).px r c = 255 := by
    unfold dilate
    exact foldr_guard_pres (fun v => v = 0 ∨ v = 255) max
      (fun a b ha hb1 => by rcases ha with ha | ha <;> rcases hb1 with hb1 | hb1 <;>
        simp [ha, hb1, max_def])
      _ _ (Or.inl rfl) (fun o ho hc => hpx _ _ hc)
  have hge : mask.px r c ≤ (dilate se mask).px r c := by
    have h00 : inRangeB mask.h mask.w (r + (0 : Int × Int).1)
        (c + (0 : Int × Int).2) = true := by
      simpa using hin
    have := foldr_guard_le
      (fun o => inRangeB mask.h mask.w (r + o.1) (c + o.2))
      (fun o => mask.px (r + o.1) (c + o.2)) 0 h0 h00
    simpa using this
  have hext : mask.px r c = 255 → (dilate se mask).px r c = 255 := by
    intro h255
    rw [h255] at hge
    omega
  refine ⟨hext, ?_, ?_⟩
  · intro hnz
    rcases hpx r c hin with hz | h255
    · exact hz
    · exfalso
      apply hnz
      show u8sub ((dilate se mask).px r c) (mask.px r c) = 0
      rw [h255, hext h255]
      rfl
  · show u8sub ((dilate se mask).px r c) (mask.px r c) = 0 ∨
      u8sub ((dilate se mask).px r c) (mask.px r c) = 255
    rcases hpx r c hin with hz | h255
    · rw [hz]
      rcases hd with hd | hd <;> rw [hd]
      · left
        rfl
      · right
        rfl
    · rw [h255, hext h255]
      left
      rfl

/-- C10: whenever either `segment` implementation returns, the returned mask
is a single-channel 8-bit raster with the input tile's height and width whose
pixel values are all 0 or 255, on both the early zero-contour path and the
normal watershed path, for every oracle behaviour (in particular for every
watershed output). -/
theorem c10_output_invariant :
    (∀ (ext : CvExt) (se : List (Int × Int)) (amax cmin : ℚ) (t : Tile)
        (res : Img), segUtil ext se amax cmin t = .ok res →
        res.h = t.h ∧ res.w = t.w ∧
          ∀ r c : Int, res.px r c = 0 ∨ res.px r c = 255) ∧
      (∀ (ext : CvExt) (se : List (Int × Int)) (amax cmin : ℚ) (t : Tile)
        (res : Img), segThyroid ext se amax cmin t = .ok res →
        res.h = t.h ∧ res.w = t.w ∧
          ∀ r c : Int, res.px r c = 0 ∨ res.px r c = 255) := by
  constructor
  · intro ext se amax cmin t res h
    unfold segUtil at h
    rcases hfc : ext.findContours (prepBinary ext t) with _ | cs
    · rw [hfc] at h
      have hres := Except.ok.inj h
      subst hres
      exact ⟨rfl, rfl, fun r c => Or.inl rfl⟩
    · rw [hfc] at h
      exact coreSeg_inv ext se amax cmin t cs res h
  · intro ext se amax cmin t res h
    unfold segThyroid at h
    rcases hfc : ext.findContours (prepBinary ext t) with _ | cs
    · rw [hfc] at h
      exact (Except.noConfusion h)
    · rw [hfc] at h
      exact coreSeg_inv ext se amax cmin t cs res h

/-- C10 witness: a concrete run through the watershed path, with the
dimension facts extracted from the theorem. -/
theorem c10_output_invariant_witness :
    (okOr (segUtil extSome structOffs 4000 (4 / 5) tileA)).h = tileA.h ∧
      (okOr (segUtil extSome structOffs 4000 (4 / 5) tileA)).w = tileA.w :=
  ⟨(c10_output_invariant.1 extSome structOffs 4000 (4 / 5) tileA
      (okOr (segUtil extSome structOffs 4000 (4 / 5) tileA)) rfl).1,
    (c10_output_invariant.1 extSome structOffs 4000 (4 / 5) tileA
      (okOr (segUtil extSome structOffs 4000 (4 / 5) tileA)) rfl).2.1⟩

/-- C9 witness: a concrete 2x2 binary mask and pixel with the three border
facts delivered by the theorem (the standard structuring element contains its
anchor). -/
theorem c9_border_disjoint_witness :
    ((0, 0) ∈ structOffs ∧ isBinaryB maskB = true ∧
        inRangeB maskB.h maskB.w 0 1 = true) ∧
      ((maskB.px 0 1 = 255 → (dilate structOffs maskB).px 0 1 = 255) ∧
        ((bordersOf structOffs maskB).px 0 1 ≠ 0 → maskB.px 0 1 = 0) ∧
        ((bordersOf structOffs maskB).px 0 1 = 0 ∨
          (bordersOf structOffs maskB).px 0 1 = 255)) :=
  ⟨⟨by decide, by decide, by decide⟩,
    c9_border_disjoint structOffs maskB 0 1 (by decide) (by decide) (by decide)⟩
